import Mathlib

/-!
Shallow embedding of `src/cli/eeprom_programmer.py` (AT28C EEPROM programmer CLI).

Modelling conventions:
- Python integers are `Int`; `x & 0xFF` on a Python integer (of either sign) is
  `Int.emod x 256`, `x >> 8` is `Int.fdiv x 256` (floor division), and the
  Python complement is `fun x => -x - 1`.
- Device lines are modelled after the `readline().decode().strip()` step of the
  source, i.e. as already-stripped text.
- The serial polling loops are modelled over an event list: for loops that
  carry a wall-clock deadline an event is `Option String` (`none` = the
  `in_waiting` check found nothing during this 100 ms iteration) together with
  an iteration budget standing for the deadline; the read loop of the source
  carries no deadline, so only actual lines matter there and exhausting the
  event list stands for a device that never speaks again (the source loop then
  polls forever, which the model marks with a dedicated `hang` outcome).
- Python string helpers used by the source (`s.split(sep)`, `s.split()`,
  `s.strip()`, `int(s, 16)`) are embedded as executable functions over
  `List Char` with the semantics of the Python originals.
-/

set_option maxHeartbeats 1000000
set_option maxRecDepth 16384

namespace EEPROM

/-- Embeds `calculate_checksum` (lines 56-68 of the source):
`total = sum(line) & 0xFF; return ((~total) + 1) & 0xFF`. -/
def calculate_checksum (line : List Int) : Int :=
  let total : Int := (line.sum).emod 256
  ((-total - 1) + 1).emod 256

/-- Uppercase hexadecimal digit for a nibble, as rendered by the Python
format specifier `X`. -/
def hexDigitChar (n : Nat) : Char :=
  if n < 10 then Char.ofNat (48 + n) else Char.ofNat (55 + n)

/-- Big-endian uppercase hexadecimal digits of `n`, prepended to `acc`.
Structural recursion on a fuel argument (any fuel at least `n` gives the full
digit string, and `natToHex` passes `n` itself); when the value reaches zero
the remaining fuel is irrelevant. -/
def natToHexAux (fuel : Nat) (n : Nat) (acc : List Char) : List Char :=
  match fuel with
  | 0 => acc
  | f + 1 => if n = 0 then acc else natToHexAux f (n / 16) (hexDigitChar (n % 16) :: acc)

/-- Uppercase hexadecimal digits of `n` (at least one digit). -/
def natToHex (n : Nat) : List Char :=
  if n = 0 then ['0'] else natToHexAux n n []

/-- Left-pad with zeros up to `width` characters. -/
def zpad (width : Nat) (s : List Char) : List Char :=
  List.replicate (width - s.length) '0' ++ s

/-- Embeds the Python format expression `f"\x7bv:0wX\x7d"`: zero-padded
uppercase hexadecimal of total width at least `w`; a negative value is
rendered with a leading minus sign that counts toward the width. -/
def pyHexFmt (width : Nat) (v : Int) : String :=
  if v < 0 then String.mk ('-' :: zpad (width - 1) (natToHex (-v).toNat))
  else String.mk (zpad width (natToHex v.toNat))

/-- Embeds `bytes_to_hex_record` (lines 71-126 of the source). The three
validations and the field layout follow the source statement by statement;
`addr_hi` is `(address >> 8) & 0xFF` and `addr_lo` is `address & 0xFF`. -/
def bytes_to_hex_record (address : Int) (record_type : Int) (line : List Int) :
    Except String String :=
  if 0xFFFF < address then Except.error "ValueError: address exceeds 0xFFFF"
  else if line.any (fun b => 0xFF < b) then
    Except.error "ValueError: data contains bytes over 0xFF"
  else if 0xFF < record_type then Except.error "ValueError: record type exceeds 0xFF"
  else
    let byte_count : Int := line.length
    let addr_hi : Int := (address.fdiv 256).emod 256
    let addr_lo : Int := address.emod 256
    let checksum_data : List Int := [byte_count, addr_hi, addr_lo, record_type] ++ line
    let checksum : Int := calculate_checksum checksum_data
    let hex_data : String := String.join (line.map (fun b => pyHexFmt 2 b))
    Except.ok (":" ++ pyHexFmt 2 byte_count ++ pyHexFmt 2 addr_hi ++ pyHexFmt 2 addr_lo
      ++ pyHexFmt 2 record_type ++ hex_data ++ pyHexFmt 2 checksum)

/-- Value of one hexadecimal digit character (either case), `none` otherwise. -/
def hexDigitVal (c : Char) : Option Nat :=
  if ('0' ≤ c) ∧ (c ≤ '9') then some (c.toNat - 48)
  else if ('A' ≤ c) ∧ (c ≤ 'F') then some (c.toNat - 55)
  else if ('a' ≤ c) ∧ (c ≤ 'f') then some (c.toNat - 87)
  else none

/-- Parse a character list as consecutive two-digit hexadecimal bytes;
fails on odd length or on a non-hexadecimal character. -/
def parsePairs : List Char → Option (List Nat)
  | [] => some []
  | [_] => none
  | c1 :: c2 :: rest =>
    match hexDigitVal c1, hexDigitVal c2 with
    | some hi, some lo => (parsePairs rest).map (fun bs => (16 * hi + lo) :: bs)
    | _, _ => none

/-- One decoded Intel HEX record (spec section 3). -/
structure HexRecord where
  address : Nat
  record_type : Nat
  data : List Nat
deriving Repr, DecidableEq

/-- Modelled from the spec: `decode_record` is described in spec section 4.1
but is absent from `src/` (only `bytes_to_hex_record` exists there). Per the
spec it parses the layout `:LLAAAATT[DD...]CC`, failing when the line does not
start with a colon, when the declared length is inconsistent with the actual
data length, or when the trailing checksum does not match the recomputed
value. -/
def decode_record (s : String) : Except String HexRecord :=
  match s.data with
  | c :: rest =>
    if c = ':' then
      match parsePairs rest with
      | none => Except.error "DecodingError: invalid hexadecimal"
      | some (len :: ahi :: alo :: rt :: tail) =>
        if tail.length = len + 1 then
          let data := tail.take len
          let cks := tail.getLastD 0
          if calculate_checksum ((len :: ahi :: alo :: rt :: data).map fun v : Nat => (v : Int))
              = (cks : Int) then
            Except.ok ⟨ahi * 256 + alo, rt, data⟩
          else Except.error "DecodingError: checksum mismatch"
        else Except.error "DecodingError: inconsistent length"
      | some _ => Except.error "DecodingError: record too short"
    else Except.error "DecodingError: missing colon"
  | [] => Except.error "DecodingError: missing colon"

/-- Python `s.strip()`: drop leading and trailing whitespace. -/
def chStrip (l : List Char) : List Char :=
  ((l.dropWhile Char.isWhitespace).reverse.dropWhile Char.isWhitespace).reverse

/-- Accumulate a run of hexadecimal digits, most significant first. -/
def parseHexNat (l : List Char) : Option Nat :=
  if l.isEmpty then none
  else l.foldl (fun acc c => acc.bind (fun n => (hexDigitVal c).map (fun d => 16 * n + d)))
    (some 0)

/-- Drop an optional `0x` / `0X` prefix, as accepted by Python `int(s, 16)`. -/
def strip0x : List Char → List Char
  | '0' :: 'x' :: rest => rest
  | '0' :: 'X' :: rest => rest
  | l => l

/-- Embeds Python `int(s, 16)` on inputs without digit separators: surrounding
whitespace, an optional sign, an optional `0x` prefix, then at least one
hexadecimal digit; anything else raises `ValueError`, modelled as `none`. -/
def pyIntHex (l : List Char) : Option Int :=
  match chStrip l with
  | '+' :: rest => (parseHexNat (strip0x rest)).map (fun n => (n : Int))
  | '-' :: rest => (parseHexNat (strip0x rest)).map (fun n => -(n : Int))
  | rest => (parseHexNat (strip0x rest)).map (fun n => (n : Int))

/-- Helper for `splitColonSpace`. -/
def splitColonSpaceAux : List Char → List Char → List (List Char)
  | [], acc => [acc.reverse]
  | ':' :: ' ' :: rest, acc => acc.reverse :: splitColonSpaceAux rest []
  | c :: rest, acc => splitColonSpaceAux rest (c :: acc)

/-- Embeds Python `line.split(": ")` (line 263 of the source): split on every
non-overlapping occurrence of the two-character separator, keeping empty
pieces; the result has one more piece than there are occurrences. -/
def splitColonSpace (l : List Char) : List (List Char) :=
  splitColonSpaceAux l []

/-- Helper for `splitWs`. -/
def splitWsAux : List Char → List Char → List (List Char)
  | [], acc => if acc.isEmpty then [] else [acc.reverse]
  | c :: rest, acc =>
    if c.isWhitespace then
      if acc.isEmpty then splitWsAux rest [] else acc.reverse :: splitWsAux rest []
    else splitWsAux rest (c :: acc)

/-- Embeds Python `s.split()` with no argument (line 267 of the source):
split on runs of whitespace, never producing empty pieces. -/
def splitWs (l : List Char) : List (List Char) :=
  splitWsAux l []

/-- Helper for `splitNl`. -/
def splitNlAux : List Char → List Char → List (List Char)
  | [], acc => [acc.reverse]
  | c :: rest, acc =>
    if c = '\n' then acc.reverse :: splitNlAux rest []
    else splitNlAux rest (c :: acc)

/-- Embeds Python `s.split("\n")` (line 285 of the source). -/
def splitNl (l : List Char) : List (List Char) :=
  splitNlAux l []

/-- State carried across iterations of the dump loop of `ArduinoClient.read`
(lines 240-242 of the source): the segments flushed so far, the base address
of the segment being accumulated, and its bytes. -/
structure ReadState where
  dump_data : List (Int × List Int)
  current_addr : Option Int
  current_bytes : List Int
deriving Repr, DecidableEq

/-- The state at entry of the dump loop. -/
def initReadState : ReadState := ⟨[], none, []⟩

/-- `if current_addr is not None and current_bytes: dump_data.append(...)`
(lines 249-250 and 261-262 of the source). -/
def flushSeg (st : ReadState) : List (Int × List Int) :=
  match st.current_addr with
  | some a =>
    if st.current_bytes.isEmpty then st.dump_data
    else st.dump_data ++ [(a, st.current_bytes)]
  | none => st.dump_data

/-- Result of processing one device line inside the dump loop: continue with a
new state, return the assembled image, or raise an uncaught `ValueError`. -/
inductive ReadStep where
  | cont (st : ReadState)
  | done (img : List (Int × List Int))
  | fail
deriving Repr, DecidableEq

/-- Embeds the body of the dump loop of `ArduinoClient.read` (lines 246-269 of
the source), applied to one stripped device line. The `Press` branch writes a
single space to the device and keeps the state; the `": "` branch flushes the
previous segment, then `int(addr_str, 16)` and the per-token `int(b, 16)`
raise `ValueError` on non-hexadecimal text, and unpacking `line.split(": ")`
into two variables raises `ValueError` when the separator occurs more than
once; an uncaught raise aborts `read`. -/
def read_step (st : ReadState) (line : List Char) : ReadStep :=
  if [('>' : Char)].isSuffixOf line then ReadStep.done (flushSeg st)
  else if line.isEmpty || "Addr".data.isPrefixOf line then ReadStep.cont st
  else if "Press".data.isPrefixOf line then ReadStep.cont st
  else
    let parts := splitColonSpace line
    if 2 ≤ parts.length then
      match parts with
      | [addr_str, data_str] =>
        match pyIntHex addr_str with
        | none => ReadStep.fail
        | some addr =>
          match (splitWs data_str).mapM pyIntHex with
          | none => ReadStep.fail
          | some bs => ReadStep.cont ⟨flushSeg st, some addr, bs⟩
      | _ => ReadStep.fail
    else ReadStep.cont st

/-- Outcome of the dump loop: a returned image, an uncaught `ValueError`, or
the loop polling forever because the source imposes no deadline. -/
inductive ReadOutcome where
  | result (img : List (Int × List Int))
  | fail
  | hang
deriving Repr, DecidableEq

/-- Embeds the dump loop of `ArduinoClient.read` (lines 244-271 of the source)
over the sequence of lines the device will emit. The loop has no deadline
check, so once the line list is exhausted `in_waiting` never becomes true
again and the source spins forever: `hang`. -/
def read_loop : List String → ReadState → ReadOutcome
  | [], _ => ReadOutcome.hang
  | l :: rest, st =>
    match read_step st l.data with
    | ReadStep.done img => ReadOutcome.result img
    | ReadStep.fail => ReadOutcome.fail
    | ReadStep.cont st2 => read_loop rest st2

/-- Outcome of the erase completion loop. -/
inductive EraseOutcome where
  | ok (printed : List String)
  | timeout
deriving Repr, DecidableEq

/-- Embeds the completion loop of `ArduinoClient.erase` (lines 212-226 of the
source). Each event is one 100 ms polling iteration: `some l` when
`in_waiting` was true and the stripped line `l` was read, `none` when nothing
was pending. `remaining` is the iteration budget left before `time.time()`
exceeds the 30 second deadline (~300 iterations in the source); the deadline
test runs after the line is processed, exactly as in the source, and an
exhausted event list stands for a device that never speaks again, which the
source loop answers by raising the timeout once the deadline passes. -/
def erase_loop : List (Option String) → Nat → List String → EraseOutcome
  | [], _, _ => EraseOutcome.timeout
  | some l :: rest, remaining, printed =>
    if "Commands:".data.isSuffixOf l.data then EraseOutcome.ok printed
    else
      let printed2 := if l = "" then printed else printed ++ [l]
      match remaining with
      | 0 => EraseOutcome.timeout
      | r + 1 => erase_loop rest r printed2
  | none :: rest, remaining, printed =>
    match remaining with
    | 0 => EraseOutcome.timeout
    | r + 1 => erase_loop rest r printed

/-- Whether an event delivers a line that ends the erase loop. -/
def isCommandsEv : Option String → Bool
  | some s => "Commands:".data.isSuffixOf s.data
  | none => false

/-- The progress lines the erase loop prints for a list of events: every
non-empty delivered line. -/
def eraseProgress (evs : List (Option String)) : List String :=
  evs.filterMap (fun e => match e with
    | some s => if s = "" then none else some s
    | none => none)

/-- Embeds the per-record drain of `ArduinoClient.write_hex` (lines 288-295 of
the source) over the list of lines immediately available in the input buffer:
`while True: if in_waiting: read a line, stop on a "Commands" line, else print
it; else: break`. Returns the printed progress lines and the buffer left
unread. -/
def write_drain : List String → List String × List String
  | [] => ([], [])
  | l :: rest =>
    if "Commands".data.isPrefixOf l.data then ([], rest)
    else
      let pr := write_drain rest
      (l :: pr.1, pr.2)

/-- Helper for `write_hex`: one iteration per hex line, draining the lines
immediately available after that line was sent; returns the lines written to
the device (each CRLF-terminated on the wire, the final empty line closing
the upload) and the printed progress lines. -/
def write_hex_go : List String → List (List String) → List String × List String
  | [], _ => ([""], [])
  | l :: ls, bufs =>
    let drained := write_drain (bufs.headD [])
    let restRes := write_hex_go ls bufs.tail
    (String.mk (chStrip l.data) :: restRes.1, drained.1 ++ restRes.2)

/-- Embeds `ArduinoClient.write_hex` (lines 273-298 of the source):
`hex_data.strip().split("\n")`, each line stripped and sent, then the
per-record drain; `bufs` lists, per record, the lines immediately available
after that record was sent. -/
def write_hex (hex_data : String) (bufs : List (List String)) :
    List String × List String :=
  write_hex_go ((splitNl (chStrip hex_data.data)).map String.mk) bufs

/-- Whether an `Except` value is a success. -/
def exceptOk {ε α : Type} : Except ε α → Bool
  | Except.ok _ => true
  | Except.error _ => false

/-- The two-hex-digit rendering of each value, concatenated; the character
layout of the body of a well-formed encoded record. -/
def hexPairs (vs : List Nat) : List Char :=
  (vs.map fun v => [hexDigitChar (v / 16), hexDigitChar (v % 16)]).flatten

/-- The Intel HEX checksum of a record with the given fields, as a natural
number below 256. -/
def recordChecksumNat (a t : Nat) (d : List Nat) : Nat :=
  (calculate_checksum ((d.length :: a / 256 :: a % 256 :: t :: d).map fun v : Nat => (v : Int))).toNat

/-! ## Helper lemmas -/

theorem calculate_checksum_eq (l : List Int) :
    calculate_checksum l = (-(l.sum)).emod 256 := by
  show ((-(l.sum.emod 256) - 1) + 1).emod 256 = (-(l.sum)).emod 256
  have h2 : (-(l.sum.emod 256) - 1) + 1 = -(l.sum.emod 256) := by ring
  rw [h2]
  have h3 : Int.ModEq 256 (l.sum.emod 256) l.sum :=
    Int.emod_emod_of_dvd l.sum (dvd_refl 256)
  exact h3.neg

theorem calculate_checksum_range (l : List Int) :
    0 ≤ calculate_checksum l ∧ calculate_checksum l < 256 := by
  rw [calculate_checksum_eq]
  exact ⟨Int.emod_nonneg _ (by norm_num), Int.emod_lt_of_pos _ (by norm_num)⟩

theorem encode_ok_of_bounds (a t : Int) (d : List Int) (ha : a ≤ 0xFFFF) (ht : t ≤ 0xFF)
    (hd : ∀ b ∈ d, b ≤ 0xFF) : ∃ s, bytes_to_hex_record a t d = Except.ok s := by
  simp only [bytes_to_hex_record]
  rw [if_neg (by omega)]
  rw [if_neg ?hany]
  case hany =>
    intro hcon
    rw [List.any_eq_true] at hcon
    obtain ⟨b, hb, hgt⟩ := hcon
    rw [decide_eq_true_eq] at hgt
    have := hd b hb
    omega
  rw [if_neg (by omega)]
  exact ⟨_, rfl⟩

theorem encode_error_of_violation (a t : Int) (d : List Int)
    (h : 0xFFFF < a ∨ (∃ b ∈ d, 0xFF < b) ∨ 0xFF < t) :
    exceptOk (bytes_to_hex_record a t d) = false := by
  simp only [bytes_to_hex_record]
  split_ifs with h1 h2 h3
  · rfl
  · rfl
  · rfl
  · exfalso
    rcases h with hca | ⟨b, hb, hgt⟩ | hct
    · exact h1 hca
    · exact h2 (List.any_eq_true.mpr ⟨b, hb, decide_eq_true_eq.mpr hgt⟩)
    · exact h3 hct

/-! ## Hex formatting and parsing lemmas for the record codec -/

theorem natToHexAux_zero (f : Nat) (acc : List Char) : natToHexAux f 0 acc = acc := by
  cases f <;> simp [natToHexAux]

theorem natToHexAux_succ (f n : Nat) (acc : List Char) :
    natToHexAux (f + 1) n acc
      = if n = 0 then acc else natToHexAux f (n / 16) (hexDigitChar (n % 16) :: acc) := rfl

theorem toHex2_eq (n : Nat) (h : n < 256) :
    zpad 2 (natToHex n) = [hexDigitChar (n / 16), hexDigitChar (n % 16)] := by
  by_cases h0 : n = 0
  · subst h0; decide
  · obtain ⟨m, rfl⟩ : ∃ m, n = m + 1 := ⟨n - 1, by omega⟩
    by_cases h16 : m + 1 < 16
    · have hd : (m + 1) / 16 = 0 := Nat.div_eq_of_lt h16
      have hm : (m + 1) % 16 = m + 1 := Nat.mod_eq_of_lt h16
      rw [natToHex, if_neg h0, natToHexAux_succ, if_neg h0, hd, hm, natToHexAux_zero]
      have hz : hexDigitChar 0 = '0' := rfl
      rw [hz]
      simp [zpad]
    · obtain ⟨k, rfl⟩ : ∃ k, m = k + 1 := ⟨m - 1, by omega⟩
      have hd1 : ¬ (k + 2) / 16 = 0 := by omega
      have hd2 : (k + 2) / 16 < 16 := by omega
      rw [natToHex, if_neg h0, natToHexAux_succ, if_neg h0, natToHexAux_succ, if_neg hd1]
      rw [show (k + 2) / 16 / 16 = 0 from by omega, natToHexAux_zero]
      rw [show (k + 2) / 16 % 16 = (k + 2) / 16 from Nat.mod_eq_of_lt hd2]
      simp [zpad]

theorem pyHexFmt2_ofNat (n : Nat) (h : n < 256) :
    (pyHexFmt 2 ((n : Nat) : Int)).data = [hexDigitChar (n / 16), hexDigitChar (n % 16)] := by
  rw [pyHexFmt, if_neg (by omega)]
  rw [Int.toNat_natCast]
  exact toHex2_eq n h

theorem pyHexFmt2_data_int (b : Int) (h0 : 0 ≤ b) (h : b ≤ 255) :
    (pyHexFmt 2 b).data = [hexDigitChar (b.toNat / 16), hexDigitChar (b.toNat % 16)] := by
  have hb : b = ((b.toNat : Nat) : Int) := (Int.toNat_of_nonneg h0).symm
  conv_lhs => rw [hb]
  exact pyHexFmt2_ofNat b.toNat (by omega)

theorem hexVal_hexChar : ∀ k : Nat, k < 16 → hexDigitVal (hexDigitChar k) = some k := by
  decide

theorem parsePairs_pair (v : Nat) (h : v < 256) (rest : List Char) :
    parsePairs (hexDigitChar (v / 16) :: hexDigitChar (v % 16) :: rest)
      = (parsePairs rest).map (fun bs => v :: bs) := by
  have h1 : v / 16 < 16 := by omega
  have h2 : v % 16 < 16 := by omega
  have hv : 16 * (v / 16) + v % 16 = v := by omega
  simp only [parsePairs, hexVal_hexChar _ h1, hexVal_hexChar _ h2, hv]

theorem hexPairs_cons (v : Nat) (t : List Nat) :
    hexPairs (v :: t) = hexDigitChar (v / 16) :: hexDigitChar (v % 16) :: hexPairs t := rfl

theorem hexPairs_append (l1 l2 : List Nat) :
    hexPairs (l1 ++ l2) = hexPairs l1 ++ hexPairs l2 := by
  simp [hexPairs]

theorem parsePairs_hexPairs (vs : List Nat) (h : ∀ v ∈ vs, v < 256) (tail : List Char) :
    parsePairs (hexPairs vs ++ tail) = (parsePairs tail).map (fun bs => vs ++ bs) := by
  induction vs with
  | nil =>
    show parsePairs tail = (parsePairs tail).map (fun bs => [] ++ bs)
    cases parsePairs tail <;> simp
  | cons v t ih =>
    have hv := h v (List.mem_cons_self v t)
    have ht := fun x hx => h x (List.mem_cons_of_mem v hx)
    rw [hexPairs_cons, List.cons_append, List.cons_append, parsePairs_pair v hv, ih ht]
    cases parsePairs tail <;> simp

theorem parsePairs_hexPairs_all (vs : List Nat) (h : ∀ v ∈ vs, v < 256) :
    parsePairs (hexPairs vs) = some vs := by
  have h2 := parsePairs_hexPairs vs h []
  rw [List.append_nil] at h2
  simpa [parsePairs] using h2

theorem string_ext (s t : String) (h : s.data = t.data) : s = t := by
  cases s; cases t; exact congrArg String.mk h

theorem data_append (s t : String) : (s ++ t).data = s.data ++ t.data := by
  cases s; cases t; rfl

theorem data_foldl (L : List String) : ∀ init : String,
    (L.foldl (fun r s => r ++ s) init).data = init.data ++ (L.map String.data).flatten := by
  induction L with
  | nil => intro init; simp
  | cons s t ih =>
    intro init
    rw [List.foldl_cons, ih (init ++ s), data_append]
    simp [List.append_assoc]

theorem data_join (L : List String) :
    (String.join L).data = (L.map String.data).flatten := by
  have h := data_foldl L ""
  simpa [String.join] using h

theorem dataHex_data (d : List Nat) (hb : ∀ b ∈ d, b ≤ 0xFF) :
    (String.join ((d.map fun b : Nat => (b : Int)).map fun b => pyHexFmt 2 b)).data
      = hexPairs d := by
  rw [data_join, List.map_map, List.map_map]
  unfold hexPairs
  congr 1
  apply List.map_congr_left
  intro b hbb
  show (pyHexFmt 2 ((b : Nat) : Int)).data = _
  rw [pyHexFmt2_ofNat b (by have := hb b hbb; omega)]

/-! ## Claim theorems -/

/-- C5: for every finite sequence of bytes `b` (each 0..255), appending the
checksum makes the total sum zero modulo 256:
`checksum(b + [checksum(b)]) == 0`, where `checksum(b)` equals
`(-sum(b)) mod 256` and always lies in 0..255. -/
theorem checksum_property (b : List Int) (hb : ∀ x ∈ b, 0 ≤ x ∧ x ≤ 0xFF) :
    calculate_checksum (b ++ [calculate_checksum b]) = 0
    ∧ calculate_checksum b = (-(b.sum)).emod 256
    ∧ 0 ≤ calculate_checksum b ∧ calculate_checksum b ≤ 0xFF := by
  have hrange := calculate_checksum_range b
  refine ⟨?_, calculate_checksum_eq b, hrange.1, by omega⟩
  rw [calculate_checksum_eq, List.sum_append, List.sum_cons, List.sum_nil, add_zero,
    calculate_checksum_eq]
  have h : Int.ModEq 256 ((-(b.sum)).emod 256) (-(b.sum)) :=
    Int.emod_emod_of_dvd _ (dvd_refl 256)
  have h2 : Int.ModEq 256 (b.sum + (-(b.sum)).emod 256) 0 := by
    have h3 := (Int.ModEq.refl b.sum).add h
    simpa using h3
  have h4 := h2.neg
  simpa using h4

/-- Witness for `checksum_property` at the concrete byte list `[1, 2, 250]`. -/
theorem checksum_property_witness :
    calculate_checksum ([1, 2, 250] ++ [calculate_checksum [1, 2, 250]]) = 0
    ∧ calculate_checksum [1, 2, 250] = (-(([1, 2, 250] : List Int).sum)).emod 256
    ∧ 0 ≤ calculate_checksum [1, 2, 250] ∧ calculate_checksum [1, 2, 250] ≤ 0xFF :=
  checksum_property [1, 2, 250] (by decide)

/-- C6: `bytes_to_hex_record` fails whenever `address > 0xFFFF` (in particular
at `0x10000`), whenever some data byte exceeds `0xFF` (in particular `0x100`),
and whenever `record_type > 0xFF` (in particular `0x100`); for inputs
satisfying all three upper bounds it returns a record string. -/
theorem encode_bounds_errors :
    (∀ (a t : Int) (d : List Int), 0xFFFF < a →
        exceptOk (bytes_to_hex_record a t d) = false)
    ∧ (∀ (a t : Int) (d : List Int), (∃ b ∈ d, 0xFF < b) →
        exceptOk (bytes_to_hex_record a t d) = false)
    ∧ (∀ (a t : Int) (d : List Int), 0xFF < t →
        exceptOk (bytes_to_hex_record a t d) = false)
    ∧ (∀ (a t : Int) (d : List Int), a ≤ 0xFFFF → t ≤ 0xFF → (∀ b ∈ d, b ≤ 0xFF) →
        ∃ s, bytes_to_hex_record a t d = Except.ok s) :=
  ⟨fun a t d h => encode_error_of_violation a t d (Or.inl h),
   fun a t d h => encode_error_of_violation a t d (Or.inr (Or.inl h)),
   fun a t d h => encode_error_of_violation a t d (Or.inr (Or.inr h)),
   fun a t d ha ht hd => encode_ok_of_bounds a t d ha ht hd⟩

/-- Witness for `encode_bounds_errors` at `address = 0x10000`, a data byte
`0x100`, `record_type = 0x100`, and one in-bounds input. -/
theorem encode_bounds_errors_witness :
    exceptOk (bytes_to_hex_record 0x10000 0 []) = false
    ∧ exceptOk (bytes_to_hex_record 0 0 [0x100]) = false
    ∧ exceptOk (bytes_to_hex_record 0 0x100 []) = false
    ∧ ∃ s, bytes_to_hex_record 0x1234 1 [0, 255] = Except.ok s :=
  ⟨encode_bounds_errors.1 0x10000 0 [] (by norm_num),
   encode_bounds_errors.2.1 0 0 [0x100] ⟨0x100, by norm_num, by norm_num⟩,
   encode_bounds_errors.2.2.1 0 0x100 [] (by norm_num),
   encode_bounds_errors.2.2.2 0x1234 1 [0, 255] (by norm_num) (by norm_num) (by decide)⟩

/-- C10: validation in `bytes_to_hex_record` checks only upper bounds, so
negative addresses, data bytes and record types raise no error, and
`encode_record(-1, 0, [])` returns the very record string of
`encode_record(0xFFFF, 0, [])` because the address bytes are reduced
modulo 256. -/
theorem encode_negative_inputs :
    (∀ (a t : Int) (d : List Int), a ≤ 0xFFFF → t ≤ 0xFF → (∀ b ∈ d, b ≤ 0xFF) →
        ∃ s, bytes_to_hex_record a t d = Except.ok s)
    ∧ bytes_to_hex_record (-1) 0 [] = bytes_to_hex_record 0xFFFF 0 [] :=
  ⟨fun a t d ha ht hd => encode_ok_of_bounds a t d ha ht hd, by rfl⟩

/-- Witness for `encode_negative_inputs`: the negative inputs
`address = -1`, `record_type = -7`, data byte `-3` are accepted. -/
theorem encode_negative_inputs_witness :
    ∃ s, bytes_to_hex_record (-1) (-7) [-3] = Except.ok s :=
  encode_negative_inputs.1 (-1) (-7) [-3] (by norm_num) (by norm_num) (by decide)

/-- C7 counterexample: the claim says every input violating the data model,
including data longer than 255 bytes, is rejected before encoding and that
the emitted length field is always exactly two hex digits. Feeding 256 bytes
(each in bounds), `bytes_to_hex_record` succeeds and the record starts with
`:100` — a three-digit length field `100`, not two digits. -/
theorem encode_overlong_data_counterexample :
    (bytes_to_hex_record 0 0 (List.replicate 256 0)).toOption.map (fun s => s.data.take 4)
      = some [':', '1', '0', '0'] := by rfl

/-- C7 amended: `bytes_to_hex_record` rejects every input violating one of
the three upper bounds (address, data byte, record type), but it does not
validate the data length: data of more than 255 in-bounds bytes is accepted,
silently producing a record whose length field is longer than two hex
digits. -/
theorem encode_validation_amended :
    (∀ (a t : Int) (d : List Int), (0xFFFF < a ∨ (∃ b ∈ d, 0xFF < b) ∨ 0xFF < t) →
        exceptOk (bytes_to_hex_record a t d) = false)
    ∧ (∀ d : List Int, (∀ b ∈ d, b ≤ 0xFF) → 255 < d.length →
        ∃ s, bytes_to_hex_record 0 0 d = Except.ok s) :=
  ⟨fun a t d h => encode_error_of_violation a t d h,
   fun d hd _ => encode_ok_of_bounds 0 0 d (by norm_num) (by norm_num) hd⟩

/-- Witness for `encode_validation_amended`: an out-of-bounds address is
rejected and an in-bounds 256-byte data list is accepted. -/
theorem encode_validation_amended_witness :
    exceptOk (bytes_to_hex_record 0x3FF00 0 []) = false
    ∧ ∃ s, bytes_to_hex_record 0 0 (List.replicate 256 0) = Except.ok s :=
  ⟨encode_validation_amended.1 0x3FF00 0 [] (Or.inl (by norm_num)),
   encode_validation_amended.2 (List.replicate 256 0)
     (by intro b hb; rw [List.eq_of_mem_replicate hb]; norm_num)
     (by simp)⟩

/-- C3: feeding the dump loop the line sequence
`["Addr Data", "0000: 01 02 03", "0010: FF FE", ">"]` yields the memory image
`[(0x0000, [1, 2, 3]), (0x0010, [255, 254])]`: the header is skipped, each
line containing `": "` starts a new segment flushing the previous one, and
the `">"` line flushes the last segment and terminates, segments in device
order. -/
theorem dump_parsing_scenario :
    read_loop ["Addr Data", "0000: 01 02 03", "0010: FF FE", ">"] initReadState
      = ReadOutcome.result [(0x0000, [1, 2, 3]), (0x0010, [255, 254])] := by rfl

theorem write_drain_stops_at_commands (l : String)
    (hl : ("Commands".data.isPrefixOf l.data) = true) :
    ∀ (pre post : List String), (∀ x ∈ pre, ("Commands".data.isPrefixOf x.data) = false) →
    write_drain (pre ++ l :: post) = (pre, post) := by
  intro pre
  induction pre with
  | nil =>
    intro post _
    simp [write_drain, hl]
  | cons x t ih =>
    intro post hno
    have hx : ("Commands".data.isPrefixOf x.data) = false := hno x (List.mem_cons_self x t)
    have hno2 : ∀ y ∈ t, ("Commands".data.isPrefixOf y.data) = false :=
      fun y hy => hno y (List.mem_cons_of_mem x hy)
    simp only [List.cons_append, write_drain, hx, Bool.false_eq_true, if_false]
    have h2 : write_drain (t.append (l :: post)) = (t, post) := ih post hno2
    rw [h2]

theorem write_drain_bounded : ∀ buf : List String,
    (write_drain buf).1.length ≤ buf.length := by
  intro buf
  induction buf with
  | nil => simp [write_drain]
  | cons l t ih =>
    by_cases hl : ("Commands".data.isPrefixOf l.data) = true
    · simp [write_drain, hl]
    · rw [Bool.not_eq_true] at hl
      simp only [write_drain, hl, Bool.false_eq_true, if_false, List.length_cons]
      exact Nat.succ_le_succ ih

/-- C9 counterexample: the claim says the per-record drain of `write_hex` is
a single non-blocking availability check, reading at most one pending line
per record. Sending one record with two non-`Commands` lines already pending,
the code drains and surfaces both of them: the drain is a loop over the
availability check, not a single check. -/
theorem write_drain_multi_line_counterexample :
    write_hex ":00000001FF" [["W 0000", "W 0001"]]
      = ([":00000001FF", ""], ["W 0000", "W 0001"]) := by rfl

/-- C9 amended: the per-record drain of `write_hex` is a deadline-free loop
of non-blocking availability checks: it consumes every immediately available
line, stops draining the current record as soon as a line starting with
`Commands` is seen, proceeds immediately when nothing is pending, and is
bounded by the number of immediately available lines. -/
theorem write_drain_amended :
    (∀ (l : String) (pre post : List String),
        (∀ x ∈ pre, ("Commands".data.isPrefixOf x.data) = false) →
        ("Commands".data.isPrefixOf l.data) = true →
        write_drain (pre ++ l :: post) = (pre, post))
    ∧ write_drain [] = ([], [])
    ∧ (∀ buf : List String, (write_drain buf).1.length ≤ buf.length) :=
  ⟨fun l pre post hno hl => write_drain_stops_at_commands l hl pre post hno, rfl,
   write_drain_bounded⟩

/-- Witness for `write_drain_amended`: one pending progress line, then a
`Commands` line that stops the drain, leaving a later line unread. -/
theorem write_drain_amended_witness :
    write_drain (["OK 0000"] ++ "Commands: menu" :: ["late line"])
      = (["OK 0000"], ["late line"]) :=
  write_drain_amended.1 "Commands: menu" ["OK 0000"] ["late line"] (by decide) (by decide)

theorem read_step_no_done (st : ReadState) (line : List Char)
    (h : ([('>' : Char)].isSuffixOf line) = false) :
    (∃ st2, read_step st line = ReadStep.cont st2) ∨ read_step st line = ReadStep.fail := by
  simp only [read_step]
  rw [if_neg (by simp [h])]
  repeat' first
  | (left; exact ⟨_, rfl⟩)
  | (right; rfl)
  | split

/-- C1 counterexample: the claim says that whenever no line ending with `>`
arrives, `read` hits a safety deadline and fails with `ProtocolTimeout`.
The dump loop of the source has no deadline check at all: on a device that
sends nothing, and on one that sends a data row and then goes silent, the
loop polls forever; no timeout outcome even exists for it. -/
theorem read_no_deadline_counterexample :
    read_loop [] initReadState = ReadOutcome.hang
    ∧ read_loop ["0000: 01"] initReadState = ReadOutcome.hang :=
  ⟨rfl, rfl⟩

/-- C1 amended: the dump loop imposes no deadline: for every line sequence in
which no line ends with `>`, `read` never returns a memory image — it either
raises an uncaught `ValueError` on a malformed `": "` row or polls forever;
it never raises `ProtocolTimeout`. -/
theorem read_no_gt_never_returns (lines : List String) (st : ReadState)
    (h : ∀ l ∈ lines, ([('>' : Char)].isSuffixOf l.data) = false) :
    read_loop lines st = ReadOutcome.hang ∨ read_loop lines st = ReadOutcome.fail := by
  induction lines generalizing st with
  | nil => exact Or.inl rfl
  | cons l rest ih =>
    have hl := h l (List.mem_cons_self l rest)
    have hrest : ∀ x ∈ rest, ([('>' : Char)].isSuffixOf x.data) = false :=
      fun x hx => h x (List.mem_cons_of_mem l hx)
    rcases read_step_no_done st l.data hl with ⟨st2, hstep⟩ | hstep
    · simp only [read_loop, hstep]
      exact ih st2 hrest
    · exact Or.inr (by simp only [read_loop, hstep])

/-- Witness for `read_no_gt_never_returns` on a short transcript with no
terminal prompt line. -/
theorem read_no_gt_never_returns_witness :
    read_loop ["EEPROM dump"] initReadState = ReadOutcome.hang
    ∨ read_loop ["EEPROM dump"] initReadState = ReadOutcome.fail :=
  read_no_gt_never_returns ["EEPROM dump"] initReadState (by decide)

theorem erase_loop_reaches_commands (l : String) (evs2 : List (Option String))
    (hl : ("Commands:".data.isSuffixOf l.data) = true) :
    ∀ (evs1 : List (Option String)) (r : Nat) (acc : List String),
    (∀ e ∈ evs1, isCommandsEv e = false) → evs1.length ≤ r →
    erase_loop (evs1 ++ some l :: evs2) r acc
      = EraseOutcome.ok (acc ++ eraseProgress evs1) := by
  intro evs1
  induction evs1 with
  | nil =>
    intro r acc _ _
    simp [erase_loop, hl, eraseProgress]
  | cons e t ih =>
    intro r acc hno hlen
    rw [List.length_cons] at hlen
    obtain ⟨r2, rfl⟩ : ∃ r2, r = r2 + 1 := ⟨r - 1, by omega⟩
    have hlen2 : t.length ≤ r2 := by omega
    have hno2 : ∀ x ∈ t, isCommandsEv x = false :=
      fun x hx => hno x (List.mem_cons_of_mem e hx)
    match e with
    | some s =>
      have hs : ("Commands:".data.isSuffixOf s.data) = false := by
        have := hno (some s) (List.mem_cons_self (some s) t)
        simpa [isCommandsEv] using this
      simp only [List.cons_append, erase_loop, hs, Bool.false_eq_true, if_false]
      have h2 : erase_loop (t.append (some l :: evs2)) r2 (if s = "" then acc else acc ++ [s])
          = EraseOutcome.ok ((if s = "" then acc else acc ++ [s]) ++ eraseProgress t) :=
        ih r2 _ hno2 hlen2
      rw [h2]
      by_cases hse : s = ""
      · simp [hse, eraseProgress]
      · simp [hse, eraseProgress, List.append_assoc]
    | none =>
      simp only [List.cons_append, erase_loop]
      have h2 : erase_loop (t.append (some l :: evs2)) r2 acc
          = EraseOutcome.ok (acc ++ eraseProgress t) := ih r2 acc hno2 hlen2
      rw [h2]
      simp [eraseProgress]

theorem erase_loop_times_out :
    ∀ (evs : List (Option String)) (r : Nat) (acc : List String),
    (∀ e ∈ evs.take (r + 1), isCommandsEv e = false) →
    erase_loop evs r acc = EraseOutcome.timeout := by
  intro evs
  induction evs with
  | nil => intro r acc _; rfl
  | cons e t ih =>
    intro r acc h
    have he : isCommandsEv e = false := by
      apply h e
      rw [List.take_succ_cons]
      exact List.mem_cons_self e (t.take r)
    match e with
    | some s =>
      have hs : ("Commands:".data.isSuffixOf s.data) = false := by
        simpa [isCommandsEv] using he
      cases r with
      | zero => simp [erase_loop, hs]
      | succ r2 =>
        have h2 : ∀ x ∈ t.take (r2 + 1), isCommandsEv x = false := by
          intro x hx
          apply h x
          rw [List.take_succ_cons]
          exact List.mem_cons_of_mem (some s) hx
        simp only [erase_loop, hs, Bool.false_eq_true, if_false]
        exact ih r2 _ h2
    | none =>
      cases r with
      | zero => simp [erase_loop]
      | succ r2 =>
        have h2 : ∀ x ∈ t.take (r2 + 1), isCommandsEv x = false := by
          intro x hx
          apply h x
          rw [List.take_succ_cons]
          exact List.mem_cons_of_mem none hx
        simp only [erase_loop]
        exact ih r2 acc h2

/-- C4: the erase completion loop returns normally when a line ending with
the literal `Commands:` arrives within the iteration budget of the 30-second
deadline, surfacing every earlier non-empty line as progress output; when no
such line arrives within the budget, it raises the timeout. One event is one
100 ms polling iteration (`some line` when `in_waiting` was true, `none`
otherwise), and `r` is the iteration budget of the deadline, checked after
each processed event exactly as the source checks `time.time()` after each
loop body. -/
theorem erase_deadline_behavior :
    (∀ (evs1 : List (Option String)) (l : String) (evs2 : List (Option String)) (r : Nat),
        (∀ e ∈ evs1, isCommandsEv e = false) →
        ("Commands:".data.isSuffixOf l.data) = true →
        evs1.length ≤ r →
        erase_loop (evs1 ++ some l :: evs2) r [] = EraseOutcome.ok (eraseProgress evs1))
    ∧ (∀ (evs : List (Option String)) (r : Nat),
        (∀ e ∈ evs.take (r + 1), isCommandsEv e = false) →
        erase_loop evs r [] = EraseOutcome.timeout) :=
  ⟨fun evs1 l evs2 r h1 h2 h3 => by
      have h4 := erase_loop_reaches_commands l evs2 h2 evs1 r [] h1 h3
      simpa using h4,
   fun evs r h => erase_loop_times_out evs r [] h⟩

/-- Witness for `erase_deadline_behavior`: a progress line, an idle poll, then
the menu echo inside the budget gives success with the progress output; a
transcript with no menu echo gives the timeout. -/
theorem erase_deadline_behavior_witness :
    erase_loop [some "Erasing block", none, some "AT28C Commands:"] 2 []
      = EraseOutcome.ok ["Erasing block"]
    ∧ erase_loop [some "Erasing block", none] 5 [] = EraseOutcome.timeout :=
  ⟨erase_deadline_behavior.1 [some "Erasing block", none] "AT28C Commands:" [] 2
      (by decide) (by decide) (by decide),
   erase_deadline_behavior.2 [some "Erasing block", none] 5 (by decide)⟩

/-- C8 counterexample: the claim says a line containing `": "` is parsed as a
hexadecimal address and hexadecimal byte values without ever causing `read`
to fail. The source parses with `int(_, 16)` and tuple unpacking, both of
which raise: a row whose address is not hexadecimal aborts the dump, as does
a row containing `": "` twice. -/
theorem read_invalid_hex_counterexample :
    read_loop ["zz: 01", ">"] initReadState = ReadOutcome.fail
    ∧ read_loop ["00: 01: 02", ">"] initReadState = ReadOutcome.fail :=
  ⟨rfl, rfl⟩

/-- C8 amended: a line matching none of the markers is ignored and the dump
continues unchanged; a line containing `": "` is parsed into a new segment
when the separator occurs exactly once, the address text parses as
hexadecimal and every byte token parses as hexadecimal — but when the address
text is not valid hexadecimal (and likewise for byte tokens or a repeated
separator) the dump loop fails with an uncaught `ValueError` instead of
continuing. -/
theorem read_line_handling_amended :
    (∀ (st : ReadState) (line : List Char),
        ([('>' : Char)].isSuffixOf line) = false → line.isEmpty = false →
        ("Addr".data.isPrefixOf line) = false → ("Press".data.isPrefixOf line) = false →
        (splitColonSpace line).length < 2 →
        read_step st line = ReadStep.cont st)
    ∧ (∀ (st : ReadState) (line : List Char) (a d : List Char) (addr : Int) (bs : List Int),
        ([('>' : Char)].isSuffixOf line) = false → line.isEmpty = false →
        ("Addr".data.isPrefixOf line) = false → ("Press".data.isPrefixOf line) = false →
        splitColonSpace line = [a, d] → pyIntHex a = some addr →
        (splitWs d).mapM pyIntHex = some bs →
        read_step st line = ReadStep.cont ⟨flushSeg st, some addr, bs⟩)
    ∧ (∀ (st : ReadState) (line : List Char) (a d : List Char),
        ([('>' : Char)].isSuffixOf line) = false → line.isEmpty = false →
        ("Addr".data.isPrefixOf line) = false → ("Press".data.isPrefixOf line) = false →
        splitColonSpace line = [a, d] → pyIntHex a = none →
        read_step st line = ReadStep.fail) := by
  refine ⟨?_, ?_, ?_⟩
  · intro st line h1 h2 h3 h4 h5
    simp only [read_step]
    rw [if_neg (by simp [h1]), if_neg (by simp [h2, h3]), if_neg (by simp [h4]),
      if_neg (by omega)]
  · intro st line a d addr bs h1 h2 h3 h4 h5 h6 h7
    simp only [read_step]
    rw [if_neg (by simp [h1]), if_neg (by simp [h2, h3]), if_neg (by simp [h4])]
    have h7b : List.mapM.loop pyIntHex (splitWs d) [] = some bs := h7
    simp [h5, h6, h7, h7b]
  · intro st line a d h1 h2 h3 h4 h5 h6
    simp only [read_step]
    rw [if_neg (by simp [h1]), if_neg (by simp [h2, h3]), if_neg (by simp [h4])]
    simp [h5, h6]

/-- Witness for `read_line_handling_amended`: an unmatched line is ignored, a
well-formed row becomes a new segment, a non-hexadecimal address fails. -/
theorem read_line_handling_amended_witness :
    read_step initReadState "EEPROM ready".data = ReadStep.cont initReadState
    ∧ read_step initReadState "0000: 01".data
        = ReadStep.cont ⟨flushSeg initReadState, some 0, [1]⟩
    ∧ read_step initReadState "qq: 01".data = ReadStep.fail :=
  ⟨read_line_handling_amended.1 initReadState "EEPROM ready".data
      (by decide) (by decide) (by decide) (by decide) (by decide),
   read_line_handling_amended.2.1 initReadState "0000: 01".data "0000".data "01".data 0 [1]
      (by decide) (by decide) (by decide) (by decide) (by decide) (by decide) (by decide),
   read_line_handling_amended.2.2 initReadState "qq: 01".data "qq".data "01".data
      (by decide) (by decide) (by decide) (by decide) (by decide) (by decide)⟩

theorem encode_ok_data (a t : Nat) (d : List Nat) (ha : a ≤ 0xFFFF) (ht : t ≤ 0xFF)
    (hlen : d.length ≤ 255) (hb : ∀ b ∈ d, b ≤ 0xFF) :
    bytes_to_hex_record (a : Int) (t : Int) (d.map fun b : Nat => (b : Int))
      = Except.ok (String.mk (':' ::
          hexPairs (d.length :: a / 256 :: a % 256 :: t
            :: (d ++ [recordChecksumNat a t d])))) := by
  have hv : ((a : Int).fdiv 256) = (a : Int) / 256 := Int.fdiv_eq_ediv _ (by norm_num)
  have hB : ((a : Int).fdiv 256).emod 256 = ((a / 256 : Nat) : Int) := by
    rw [hv]; show ((a : Int) / 256) % 256 = _; omega
  have hC : (a : Int).emod 256 = ((a % 256 : Nat) : Int) := by
    show (a : Int) % 256 = _; omega
  have hlist : ([(((d.map fun b : Nat => (b : Int)).length : Nat) : Int),
        ((a : Int).fdiv 256).emod 256, (a : Int).emod 256, (t : Int)]
          ++ (d.map fun b : Nat => (b : Int)))
      = ((d.length :: a / 256 :: a % 256 :: t :: d).map fun v : Nat => (v : Int)) := by
    simp [List.length_map, hB, hC]
  have hcksrange := calculate_checksum_range
    ((d.length :: a / 256 :: a % 256 :: t :: d).map fun v : Nat => (v : Int))
  have hcksval : ((recordChecksumNat a t d : Nat) : Int)
      = calculate_checksum ((d.length :: a / 256 :: a % 256 :: t :: d).map fun v : Nat => (v : Int)) := by
    rw [recordChecksumNat]
    exact Int.toNat_of_nonneg hcksrange.1
  simp only [bytes_to_hex_record]
  split_ifs with h1 h2 h3
  · exfalso; omega
  · exfalso
    rw [List.any_eq_true] at h2
    obtain ⟨x, hx, hgt⟩ := h2
    rw [List.mem_map] at hx
    obtain ⟨b, hbm, rfl⟩ := hx
    rw [decide_eq_true_eq] at hgt
    have := hb b hbm
    omega
  · exfalso; omega
  · congr 1
    apply string_ext
    rw [hlist, ← hcksval]
    simp only [data_append]
    rw [show ((((d.map fun b : Nat => (b : Int)).length : Nat) : Int))
        = ((d.length : Nat) : Int) from by simp]
    rw [pyHexFmt2_ofNat d.length (by omega)]
    rw [hB, pyHexFmt2_ofNat (a / 256) (by omega)]
    rw [hC, pyHexFmt2_ofNat (a % 256) (by omega)]
    rw [pyHexFmt2_ofNat t (by omega)]
    rw [pyHexFmt2_ofNat (recordChecksumNat a t d) (by rw [recordChecksumNat]; omega)]
    rw [dataHex_data d hb]
    rw [hexPairs_cons, hexPairs_cons, hexPairs_cons, hexPairs_cons, hexPairs_append,
      hexPairs_cons]
    rw [show hexPairs [] = [] from rfl]
    simp

theorem decode_layout (len ahi alo rt cks : Nat) (dN : List Nat) (s : String)
    (hlen : len = dN.length)
    (hbounds : ∀ v ∈ len :: ahi :: alo :: rt :: (dN ++ [cks]), v < 256)
    (hcks : calculate_checksum ((len :: ahi :: alo :: rt :: dN).map fun v : Nat => (v : Int))
        = ((cks : Nat) : Int))
    (hs : s.data = ':' :: hexPairs (len :: ahi :: alo :: rt :: (dN ++ [cks]))) :
    decode_record s = Except.ok ⟨ahi * 256 + alo, rt, dN⟩ := by
  simp only [decode_record, hs]
  rw [if_pos trivial]
  rw [parsePairs_hexPairs_all _ hbounds]
  simp only []
  rw [if_pos (by rw [hlen]; simp)]
  rw [hlen, List.take_left, List.getLastD_concat, ← hlen]
  rw [if_pos hcks]

/-- C2: for every `address <= 0xFFFF`, `record_type <= 0xFF`, and data of
length at most 255 with every byte at most `0xFF`, decoding the encoded
record reproduces the address, the record type and the data exactly. The
encoder is `bytes_to_hex_record` from the source; `decode_record` is
modelled from the spec, which specifies it although `src/` does not define
it. -/
theorem encode_decode_roundtrip (a t : Nat) (d : List Nat)
    (ha : a ≤ 0xFFFF) (ht : t ≤ 0xFF) (hlen : d.length ≤ 255) (hb : ∀ b ∈ d, b ≤ 0xFF) :
    ∃ s, bytes_to_hex_record (a : Int) (t : Int) (d.map fun b : Nat => (b : Int))
        = Except.ok s
      ∧ decode_record s = Except.ok ⟨a, t, d⟩ := by
  refine ⟨_, encode_ok_data a t d ha ht hlen hb, ?_⟩
  have hcksrange := calculate_checksum_range
    ((d.length :: a / 256 :: a % 256 :: t :: d).map fun v : Nat => (v : Int))
  have hbounds : ∀ v ∈ d.length :: a / 256 :: a % 256 :: t
      :: (d ++ [recordChecksumNat a t d]), v < 256 := by
    intro v hv
    simp only [List.mem_cons, List.mem_append, List.mem_singleton,
      List.not_mem_nil, or_false] at hv
    rcases hv with rfl | rfl | rfl | rfl | hd | rfl
    · omega
    · omega
    · omega
    · omega
    · have := hb v hd; omega
    · rw [recordChecksumNat]; omega
  have hcks : calculate_checksum
        ((d.length :: a / 256 :: a % 256 :: t :: d).map fun v : Nat => (v : Int))
      = ((recordChecksumNat a t d : Nat) : Int) := by
    rw [recordChecksumNat]
    exact (Int.toNat_of_nonneg hcksrange.1).symm
  have hdec := decode_layout d.length (a / 256) (a % 256) t (recordChecksumNat a t d) d
    (String.mk (':' :: hexPairs (d.length :: a / 256 :: a % 256 :: t
      :: (d ++ [recordChecksumNat a t d]))))
    rfl hbounds hcks rfl
  rw [show a / 256 * 256 + a % 256 = a from by omega] at hdec
  exact hdec

/-- Witness for `encode_decode_roundtrip` at address 16, record type 0 and
data `[1, 2]`. -/
theorem encode_decode_roundtrip_witness :
    ∃ s, bytes_to_hex_record ((16 : Nat) : Int) ((0 : Nat) : Int)
          (([1, 2] : List Nat).map fun b : Nat => (b : Int)) = Except.ok s
      ∧ decode_record s = Except.ok ⟨16, 0, [1, 2]⟩ :=
  encode_decode_roundtrip 16 0 [1, 2] (by norm_num) (by norm_num) (by norm_num) (by decide)

end EEPROM
